import Mathlib

/-!
Verification of the DOCX→Markdown converter (markitdown fork).

Shallow embedding of
  src/packages/markitdown/src/markitdown/converters/_docx_converter.py
  src/packages/markitdown/src/markitdown/converters/_markdownify.py
into Lean 4.  Python strings are modelled as Lean `String` (sequences of
Unicode code points), bytes as `Nat` values below 256, the filesystem as
an explicit effect log plus an oracle saying whether a given write
succeeds.  Functions from the Python standard library and the external
collaborators (BeautifulSoup, mammoth, markdownify`.MarkdownConverter`)
are modelled explicitly where their behaviour matters to the claims.
-/

namespace Markitdown

/-! ## Python string primitives -/

/-- Python `s.split(sep, 1)[1]` for a one-character separator:
everything after the first occurrence of `sep`, or `none` when `sep`
does not occur (Python raises `IndexError`). -/
def splitOnceRest (sep : Char) (s : String) : Option String :=
  match s.data.findIdx? (· = sep) with
  | none => none
  | some i => some ⟨s.data.drop (i + 1)⟩

/-- Python `s.split(sep)[0]` for a one-character separator: the part
strictly before the first occurrence of `sep` (the whole string when
`sep` is absent). -/
def splitHead (sep : Char) (s : String) : String :=
  ⟨s.data.takeWhile (· ≠ sep)⟩

/-- Python `s.split(sep)[1]` for a one-character separator: the part
between the first and the second occurrence; `none` when there is no
occurrence (Python raises `IndexError`). -/
def splitSecond (sep : Char) (s : String) : Option String :=
  match s.data.findIdx? (· = sep) with
  | none => none
  | some i => some ⟨(s.data.drop (i + 1)).takeWhile (· ≠ sep)⟩

/-- Is `pre` a prefix of `cs`? -/
def isPrefixList : List Char → List Char → Bool
  | [], _ => true
  | _ :: _, [] => false
  | p :: ps, c :: cs => p == c && isPrefixList ps cs

/-- Python `s.startswith(pre)`. -/
def pyStartsWith (s pre : String) : Bool :=
  isPrefixList pre.data s.data

/-- Python `s.endswith(suf)`. -/
def pyEndsWith (s suf : String) : Bool :=
  isPrefixList suf.data.reverse s.data.reverse

/-- Worker for `pyReplace`; the fuel (instantiated with the length of
the list) only makes the recursion structural. -/
def replaceFuel (pat rep : List Char) : Nat → List Char → List Char
  | _, [] => []
  | 0, cs => cs
  | fuel + 1, c :: rest =>
    if pat ≠ [] ∧ isPrefixList pat (c :: rest) then
      rep ++ replaceFuel pat rep fuel ((c :: rest).drop pat.length)
    else c :: replaceFuel pat rep fuel rest

/-- Python `s.replace(pat, rep)`: replace every (leftmost,
non-overlapping) occurrence. -/
def pyReplace (s pat rep : String) : String :=
  ⟨replaceFuel pat.data rep.data s.data.length s.data⟩

/-- Python truthiness of an optional string: `None` and `""` are falsy. -/
def truthy : Option String → Bool
  | none => false
  | some s => s != ""

/-- Python `opt or dflt` for optional strings. -/
def orElseStr (opt : Option String) (dflt : String) : String :=
  match opt with
  | some s => if s != "" then s else dflt
  | none => dflt

/-! ## posixpath primitives (`os.path` on POSIX) -/

/-- Index of the last occurrence of `c` in `cs`. -/
def lastIdxOf (cs : List Char) (c : Char) : Option Nat :=
  (cs.reverse.findIdx? (· = c)).map (fun i => cs.length - 1 - i)

/-- `os.path.basename` (posixpath): everything after the last slash. -/
def basename (p : String) : String :=
  match lastIdxOf p.data '/' with
  | none => p
  | some i => ⟨p.data.drop (i + 1)⟩

/-- `os.path.splitext` (genericpath._splitext with `/` as separator and
`.` as the extension separator): split at the last dot of the last
component, unless the component consists of leading dots only. -/
def splitext (p : String) : String × String :=
  let cs := p.data
  match lastIdxOf cs '.' with
  | none => (p, "")
  | some dotIdx =>
    let sepIdx : Int := match lastIdxOf cs '/' with
      | none => -1
      | some i => (i : Int)
    if sepIdx < (dotIdx : Int) then
      let fnameIdx : Nat := (sepIdx + 1).toNat
      if ((cs.drop fnameIdx).take (dotIdx - fnameIdx)).any (fun c => c ≠ '.') then
        (⟨cs.take dotIdx⟩, ⟨cs.drop dotIdx⟩)
      else (p, "")
    else (p, "")

/-- `os.path.join(a, b)` (posixpath, two arguments). -/
def pathJoin (a b : String) : String :=
  if pyStartsWith b "/" then b
  else if a = "" || pyEndsWith a "/" then a ++ b
  else a ++ "/" ++ b

/-! ## `unicodedata.normalize("NFKD", ·)` and Python `\w`

The Unicode character database is external to the repository; the model
carries the compatibility decompositions of the characters exercised in
this development and is the identity on every other character (which is
exact for characters without a decomposition, such as ASCII and CJK
ideographs). -/

/-- Compatibility decomposition of a single character (NFKD), restricted
to the characters exercised here; identity on characters that have no
decomposition. -/
def nfkdChar (c : Char) : List Char :=
  if c = 'é' then ['e', '́']
  else if c = 'ﬁ' then ['f', 'i']
  else if c = '²' then ['2']
  else [c]

/-- `unicodedata.normalize("NFKD", s)`. -/
def nfkd (s : String) : String :=
  ⟨s.data.flatMap nfkdChar⟩

/-- Non-ASCII Unicode alphanumeric characters (Python `str.isalnum`),
modelled over the code-point ranges exercised in this development:
CJK Unified Ideographs (category Lo) and Latin-1 letters.  Combining
marks (e.g. U+0301) are not alphanumeric in Python and are not here. -/
def pyNonAsciiAlnum (c : Char) : Bool :=
  (decide (0x4E00 ≤ c.toNat) && decide (c.toNat ≤ 0x9FFF)) ||
  (decide (0xC0 ≤ c.toNat) && decide (c.toNat ≤ 0xFF) &&
   decide (c.toNat ≠ 0xD7) && decide (c.toNat ≠ 0xF7))

/-- Python regex `\w` on a character: underscore or Unicode alphanumeric. -/
def isPyWordChar (c : Char) : Bool :=
  c.isAlphanum || c == '_' || pyNonAsciiAlnum c

/-- One character of `re.sub(r"[^\w\-\.]", "_", ·)`. -/
def sanitizeChar (c : Char) : Char :=
  if isPyWordChar c || c == '-' || c == '.' then c else '_'

/-- `re.sub(r"_+", "_", ·)`: collapse runs of underscores to a single
one.  The flag records whether the previous character was an
underscore. -/
def collapseUnderscoreAux : Bool → List Char → List Char
  | _, [] => []
  | prevU, c :: rest =>
    if c = '_' then
      if prevU then collapseUnderscoreAux true rest
      else '_' :: collapseUnderscoreAux true rest
    else c :: collapseUnderscoreAux false rest

def collapseUnderscores (cs : List Char) : List Char :=
  collapseUnderscoreAux false cs

/-- Python `s.strip("_")`: drop leading and trailing underscores. -/
def stripUnderscores (cs : List Char) : List Char :=
  ((cs.dropWhile (· = '_')).reverse.dropWhile (· = '_')).reverse

/-! ## `base64.b64decode` (validate=False)

Non-alphabet characters are discarded, stray padding before two data
characters is discarded, padding after two or three data characters
terminates decoding, and a trailing partial group without padding is an
error (`binascii.Error`), modelled as `none`.  Non-ASCII input raises in
Python (the implicit ASCII encode) and is `none` here. -/

/-- Value of a base64 alphabet character, `none` for non-alphabet. -/
def b64Val (c : Char) : Option Nat :=
  if 'A' ≤ c ∧ c ≤ 'Z' then some (c.toNat - 65)
  else if 'a' ≤ c ∧ c ≤ 'z' then some (c.toNat - 97 + 26)
  else if '0' ≤ c ∧ c ≤ '9' then some (c.toNat - 48 + 52)
  else if c = '+' then some 62
  else if c = '/' then some 63
  else none

/-- Bytes produced by a (possibly final, partial) base64 group. -/
def b64Emit : List Nat → List Nat
  | [a, b] => [(a * 4 + b / 16) % 256]
  | [a, b, c] => [(a * 4 + b / 16) % 256, ((b % 16) * 16 + c / 4) % 256]
  | [a, b, c, d] =>
    [(a * 4 + b / 16) % 256, ((b % 16) * 16 + c / 4) % 256, ((c % 4) * 64 + d) % 256]
  | _ => []

/-- Decoding loop: remaining characters and the pending partial group. -/
def b64Loop : List Char → List Nat → Option (List Nat)
  | [], q => if q.length = 0 then some [] else none
  | c :: rest, q =>
    if c = '=' then
      if 2 ≤ q.length then some (b64Emit q)
      else b64Loop rest q
    else
      match b64Val c with
      | none => b64Loop rest q
      | some v =>
        let q2 := q ++ [v]
        if q2.length = 4 then
          match b64Loop rest [] with
          | none => none
          | some bs => some (b64Emit q2 ++ bs)
        else b64Loop rest q2

/-- `base64.b64decode(s)` on a Python `str` argument. -/
def b64decode (s : String) : Option (List Nat) :=
  if s.data.any (fun c => 128 ≤ c.toNat) then none
  else b64Loop s.data []

/-! ## `hashlib.sha256(·).hexdigest()` (FIPS 180-4) -/

def M32 : Nat := 4294967296

def add32 (a b : Nat) : Nat := (a + b) % M32

def rotr32 (n x : Nat) : Nat := ((x >>> n) ||| (x <<< (32 - n))) % M32

def shaSmallSigma0 (x : Nat) : Nat := (rotr32 7 x) ^^^ (rotr32 18 x) ^^^ (x >>> 3)

def shaSmallSigma1 (x : Nat) : Nat := (rotr32 17 x) ^^^ (rotr32 19 x) ^^^ (x >>> 10)

def shaBigSigma0 (x : Nat) : Nat := (rotr32 2 x) ^^^ (rotr32 13 x) ^^^ (rotr32 22 x)

def shaBigSigma1 (x : Nat) : Nat := (rotr32 6 x) ^^^ (rotr32 11 x) ^^^ (rotr32 25 x)

/-- The 64 SHA-256 round constants (decimal). -/
def shaK : List Nat :=
  [1116352408, 1899447441, 3049323471, 3921009573, 961987163,
   1508970993, 2453635748, 2870763221, 3624381080, 310598401,
   607225278, 1426881987, 1925078388, 2162078206, 2614888103,
   3248222580, 3835390401, 4022224774, 264347078, 604807628,
   770255983, 1249150122, 1555081692, 1996064986, 2554220882,
   2821834349, 2952996808, 3210313671, 3336571891, 3584528711,
   113926993, 338241895, 666307205, 773529912, 1294757372,
   1396182291, 1695183700, 1986661051, 2177026350, 2456956037,
   2730485921, 2820302411, 3259730800, 3345764771, 3516065817,
   3600352804, 4094571909, 275423344, 430227734, 506948616,
   659060556, 883997877, 958139571, 1322822218, 1537002063,
   1747873779, 1955562222, 2024104815, 2227730452, 2361852424,
   2428436474, 2756734187, 3204031479, 3329325298]

/-- The initial SHA-256 hash state (decimal). -/
def shaH0 : List Nat :=
  [1779033703, 3144134277, 1013904242, 2773480762,
   1359893119, 2600822924, 528734635, 1541459225]

/-- Big-endian 8-byte encoding of a (64-bit) number. -/
def be64 (n : Nat) : List Nat :=
  [(n >>> 56) % 256, (n >>> 48) % 256, (n >>> 40) % 256, (n >>> 32) % 256,
   (n >>> 24) % 256, (n >>> 16) % 256, (n >>> 8) % 256, n % 256]

/-- SHA-256 padding: `0x80`, zeros to 56 mod 64, 8-byte bit length. -/
def shaPad (msg : List Nat) : List Nat :=
  let L := msg.length
  let z := (119 - (L % 64)) % 64
  msg ++ [0x80] ++ List.replicate z 0 ++ be64 (8 * L)

/-- Big-endian 32-bit words from a byte list. -/
def toWords : List Nat → List Nat
  | a :: b :: c :: d :: rest => (((a * 256 + b) * 256 + c) * 256 + d) :: toWords rest
  | _ => []

/-- Worker for `chunks64`; the fuel (instantiated with the length of
the list, an upper bound on the number of blocks) only makes the
recursion structural. -/
def chunks64Fuel : Nat → List Nat → List (List Nat)
  | _, [] => []
  | 0, _ => []
  | fuel + 1, bs => bs.take 64 :: chunks64Fuel fuel (bs.drop 64)

/-- Split a byte list into 64-byte blocks. -/
def chunks64 (bs : List Nat) : List (List Nat) :=
  chunks64Fuel bs.length bs

/-- Extend 16 message-schedule words to 64. -/
def shaExtend (ws : List Nat) : List Nat :=
  (List.range 48).foldl
    (fun acc _ =>
      let n := acc.length
      let w := add32 (add32 (shaSmallSigma1 (acc.getD (n - 2) 0)) (acc.getD (n - 7) 0))
                     (add32 (shaSmallSigma0 (acc.getD (n - 15) 0)) (acc.getD (n - 16) 0))
      acc ++ [w]) ws

/-- One SHA-256 round: state `[a,b,c,d,e,f,g,h]` and a pair of a
schedule word and a round constant. -/
def shaRound (st : List Nat) (wk : Nat × Nat) : List Nat :=
  match st with
  | [a, b, c, d, e, f, g, h] =>
    let s1 := shaBigSigma1 e
    let ch := (e &&& f) ^^^ ((e ^^^ 4294967295) &&& g)
    let temp1 := add32 h (add32 s1 (add32 ch (add32 wk.1 wk.2)))
    let s0 := shaBigSigma0 a
    let maj := (a &&& b) ^^^ (a &&& c) ^^^ (b &&& c)
    let temp2 := add32 s0 maj
    [add32 temp1 temp2, a, b, c, add32 d temp1, e, f, g]
  | other => other

/-- Compress one 64-byte block into the hash state. -/
def shaBlock (hs : List Nat) (block : List Nat) : List Nat :=
  let ws := shaExtend (toWords block)
  let st := (ws.zip shaK).foldl shaRound hs
  (hs.zip st).map (fun p => add32 p.1 p.2)

/-- The eight 32-bit words of the SHA-256 digest of a byte list. -/
def sha256Words (msg : List Nat) : List Nat :=
  (chunks64 (shaPad msg)).foldl shaBlock shaH0

/-- Lowercase hex digit. -/
def hexDigit (n : Nat) : Char :=
  if n < 10 then Char.ofNat (48 + n) else Char.ofNat (87 + n)

/-- Eight lowercase hex characters of a 32-bit word. -/
def hex8 (w : Nat) : List Char :=
  [hexDigit (w / 268435456 % 16), hexDigit (w / 16777216 % 16),
   hexDigit (w / 1048576 % 16), hexDigit (w / 65536 % 16),
   hexDigit (w / 4096 % 16), hexDigit (w / 256 % 16),
   hexDigit (w / 16 % 16), hexDigit (w % 16)]

/-- `hashlib.sha256(data).hexdigest()`: 64 lowercase hex characters. -/
def sha256hex (msg : List Nat) : String :=
  ⟨(sha256Words msg).flatMap hex8⟩

/-! ## `StreamInfo`

Modelled from the spec: the `StreamDescriptor` data model (optional
filename, local path, url, mimetype, extension); the class itself lives
in `_stream_info.py`, outside the provided sources. -/

structure StreamInfo where
  filename : Option String := none
  local_path : Option String := none
  url : Option String := none
  mimetype : Option String := none
  extension : Option String := none
deriving Repr, DecidableEq

/-! ## Parsed HTML documents and filesystem effects

`BeautifulSoup(html, "html.parser")` and `str(soup)` are external; the
model works directly on the parsed document: a list of nodes, each an
`img` element carrying its attribute list or some other markup.
Filesystem actions are recorded in an effect log; whether a given
`open`/`write` succeeds is decided by a caller-supplied oracle
(`os.makedirs(..., exist_ok=True)` is modelled as always succeeding). -/

/-- First value for an attribute key, `el.get(k)` (BeautifulSoup). -/
def attrGet (attrs : List (String × String)) (k : String) : Option String :=
  (attrs.find? (fun p => p.1 = k)).map (fun p => p.2)

/-- `el.get(k, d)`. -/
def attrGetD (attrs : List (String × String)) (k d : String) : String :=
  (attrGet attrs k).getD d

/-- `el[k] = v`: replace the value of `k`, or append the pair. -/
def attrSet : List (String × String) → String → String → List (String × String)
  | [], k, v => [(k, v)]
  | (k0, v0) :: rest, k, v =>
    if k0 = k then (k, v) :: rest else (k0, v0) :: attrSet rest k v

/-- A node of the parsed HTML document. -/
inductive Node where
  | img (attrs : List (String × String))
  | other (markup : String)
deriving Repr, DecidableEq

def Node.isImg : Node → Bool
  | .img _ => true
  | .other _ => false

/-- A parsed HTML document (`soup.find_all("img")` sees the `img` nodes
in order). -/
abbrev Doc := List Node

/-- A recorded filesystem action. -/
inductive FsOp where
  | makedirs (path : String) (exist_ok : Bool)
  | writeFile (path : String) (data : List Nat)
deriving Repr, DecidableEq

/-- Oracle deciding whether writing the given bytes at the given path
succeeds (models `OSError` from `open`/`write`). -/
abbrev WriteOracle := String → List Nat → Bool

/-! ## Data-URI pieces shared by both image-saving code paths -/

/-- `src.split(";")[0].replace("data:", "")`. -/
def dataUriMime (src : String) : String :=
  pyReplace (splitHead ';' src) "data:" ""

/-- The fixed extension table, defaulting to `".png"`. -/
def extForMime (mime : String) : String :=
  if mime = "image/png" then ".png"
  else if mime = "image/jpeg" then ".jpg"
  else if mime = "image/jpg" then ".jpg"
  else if mime = "image/gif" then ".gif"
  else ".png"

/-- The 8-hex-character content hash: `sha256(data).hexdigest()[:8]`. -/
def hashName (image_data : List Nat) : String :=
  ⟨(sha256hex image_data).data.take 8⟩

/-- `f"image_‹hash›‹ext›"`. -/
def imageFilename (image_data : List Nat) (ext : String) : String :=
  "image_" ++ hashName image_data ++ ext

/-- Filename computed by `_extract_and_save_images` for a source URI
(`src.split(",", 1)[1]` as payload), when no step fails. -/
def extractFilename (src : String) : Option String :=
  ((splitOnceRest ',' src).bind b64decode).map
    (fun image_data => imageFilename image_data (extForMime (dataUriMime src)))

/-- Decoded payload seen by `_extract_and_save_images`. -/
def extractDecoded (src : String) : Option (List Nat) :=
  (splitOnceRest ',' src).bind b64decode

/-- Filename computed by `_CustomMarkdownify.convert_img` for a source
URI (`src.split(",")[1]` as payload), when no step fails. -/
def imgFilename (src : String) : Option String :=
  ((splitSecond ',' src).bind b64decode).map
    (fun image_data => imageFilename image_data (extForMime (dataUriMime src)))

/-- Decoded payload seen by `convert_img`. -/
def imgDecoded (src : String) : Option (List Nat) :=
  (splitSecond ',' src).bind b64decode

/-- The effective source of an `img` element in the extraction pass:
`img.get("src", "") or img.get("data-src", "")`. -/
def imgEffSrc (attrs : List (String × String)) : String :=
  let s1 := attrGetD attrs "src" ""
  if s1 != "" then s1 else attrGetD attrs "data-src" ""

namespace DocxConverter

/-- `DocxConverter._sanitize_filename`:
normalize (NFKD), replace every character outside `\w-.` by `_`,
collapse runs of underscores, strip leading/trailing underscores,
default to `"unnamed"` when empty. -/
def _sanitize_filename (filename : String) : String :=
  let filename := nfkd filename
  let sanitized : List Char := filename.data.map sanitizeChar
  let sanitized := collapseUnderscores sanitized
  let sanitized := stripUnderscores sanitized
  if sanitized = [] then "unnamed" else ⟨sanitized⟩

/-- `DocxConverter._get_document_name`: derive a document name from the
stream info.  The `filename` hint is sanitized; the `local_path` hint is
returned as split, without sanitization; there is no `url` branch; the
fallback is the literal `"docx_document"`. -/
def _get_document_name (si : StreamInfo) : String :=
  let fromFilename : Option String :=
    if truthy si.filename then
      let name := (splitext (basename (si.filename.getD ""))).1
      if name != "" then some (_sanitize_filename name) else none
    else none
  match fromFilename with
  | some r => r
  | none =>
    if truthy si.local_path then
      let name := (splitext (basename (si.local_path.getD ""))).1
      if name != "" then name else "docx_document"
    else "docx_document"

/-- The `try:` body of the per-image loop in `_extract_and_save_images`.
`none` models a raised-and-caught exception (`IndexError` from a missing
comma, `binascii.Error` from the base64 decode, `OSError` from the
write); the mutation of the element happens only after the write, so a
failing image keeps all its original attributes. -/
def extractTry (writeOk : WriteOracle) (output_dir : String)
    (attrs : List (String × String)) (src : String) :
    Option (List (String × String) × FsOp) :=
  let mime_type := dataUriMime src
  let ext := extForMime mime_type
  match splitOnceRest ',' src with
  | none => none
  | some encoded_data =>
    match b64decode encoded_data with
    | none => none
    | some image_data =>
      let hashname := hashName image_data
      let filename := "image_" ++ hashname ++ ext
      let filepath := pathJoin output_dir filename
      if writeOk filepath image_data then
        let new_src := pyReplace (pathJoin output_dir filename) "\\" "/"
        let attrs2 := attrSet attrs "src" new_src
        let attrs3 :=
          if truthy (attrGet attrs2 "alt") then attrs2
          else attrSet attrs2 "alt" ("image_" ++ hashname)
        some (attrs3, FsOp.writeFile filepath image_data)
      else none

/-- One iteration of the image loop: elements without a
`data:image` source are skipped (`continue`), failures keep the original
attributes, successes rewrite `src` (and `alt` when empty). -/
def extractStep (writeOk : WriteOracle) (output_dir : String)
    (attrs : List (String × String)) : List (String × String) × List FsOp :=
  let src := imgEffSrc attrs
  if src = "" || !(pyStartsWith src "data:image") then (attrs, [])
  else
    match extractTry writeOk output_dir attrs src with
    | none => (attrs, [])
    | some (attrs2, op) => (attrs2, [op])

/-- Apply the loop body to a node (non-`img` nodes are untouched). -/
def extractNode (writeOk : WriteOracle) (output_dir : String) :
    Node → Node × List FsOp
  | .img attrs =>
    let (attrs2, ops) := extractStep writeOk output_dir attrs
    (.img attrs2, ops)
  | .other m => (.other m, [])

/-- `DocxConverter._extract_and_save_images`: when the document has no
`img` element, return it unchanged with no filesystem action; otherwise
create `‹assets_folder›/‹doc_folder›` (recursively, tolerating
pre-existence) and process every image in order. -/
def _extract_and_save_images (writeOk : WriteOracle) (html_content : Doc)
    (doc_folder : String) (assets_folder : String := "assets") :
    Doc × List FsOp :=
  let images := html_content.filter Node.isImg
  if images = [] then (html_content, [])
  else
    let output_dir := pathJoin assets_folder doc_folder
    let processed := html_content.map (extractNode writeOk output_dir)
    (processed.map (fun p => p.1),
     FsOp.makedirs output_dir true :: (processed.map (fun p => p.2)).flatten)

end DocxConverter

/-! ## UTF-8 codecs (for `urllib.parse.quote` / `unquote`)

Encoding is exact.  Decoding models the `errors="replace"` handler:
every byte that cannot start or continue a valid sequence decodes to
U+FFFD; valid sequences decode to their code point. -/

/-- UTF-8 encoding of one code point. -/
def utf8EncodeChar (c : Char) : List Nat :=
  if c.toNat < 0x80 then [c.toNat]
  else if c.toNat < 0x800 then [0xC0 + c.toNat / 64, 0x80 + c.toNat % 64]
  else if c.toNat < 0x10000 then
    [0xE0 + c.toNat / 4096, 0x80 + c.toNat / 64 % 64, 0x80 + c.toNat % 64]
  else
    [0xF0 + c.toNat / 262144, 0x80 + c.toNat / 4096 % 64, 0x80 + c.toNat / 64 % 64,
     0x80 + c.toNat % 64]

/-- `s.encode("utf-8")`. -/
def utf8Encode (s : String) : List Nat :=
  s.data.flatMap utf8EncodeChar

/-- The Unicode replacement character U+FFFD. -/
def replChar : Char := Char.ofNat 0xFFFD

/-- Is `b` a UTF-8 continuation byte? -/
def isContByte (b : Nat) : Bool :=
  decide (0x80 ≤ b) && decide (b < 0xC0)

/-- Make a character from a code point, replacing surrogates and
out-of-range values (which `bytes.decode` never produces from valid
sequences) by U+FFFD. -/
def mkChar (n : Nat) : Char :=
  if n.isValidChar then Char.ofNat n else replChar

/-- Decode one UTF-8 sequence starting with lead byte `b`: the decoded
character and the number of continuation bytes consumed. -/
def utf8Step (b : Nat) (rest : List Nat) : Char × Nat :=
  if b < 0x80 then (mkChar b, 0)
  else if b < 0xC2 then (replChar, 0)
  else if b < 0xE0 then
    match rest with
    | b2 :: _ =>
      if isContByte b2 then (mkChar ((b - 0xC0) * 64 + (b2 - 0x80)), 1)
      else (replChar, 0)
    | [] => (replChar, 0)
  else if b < 0xF0 then
    match rest with
    | b2 :: b3 :: _ =>
      if isContByte b2 && isContByte b3 then
        (mkChar ((b - 0xE0) * 4096 + (b2 - 0x80) * 64 + (b3 - 0x80)), 2)
      else (replChar, 0)
    | _ => (replChar, 0)
  else if b < 0xF5 then
    match rest with
    | b2 :: b3 :: b4 :: _ =>
      if isContByte b2 && isContByte b3 && isContByte b4 then
        (mkChar ((b - 0xF0) * 262144 + (b2 - 0x80) * 4096 + (b3 - 0x80) * 64 + (b4 - 0x80)), 3)
      else (replChar, 0)
    | _ => (replChar, 0)
  else (replChar, 0)

/-- Worker for `utf8DecodeReplace`; fuel makes the recursion
structural. -/
def utf8DecodeFuel : Nat → List Nat → List Char
  | _, [] => []
  | 0, _ => []
  | fuel + 1, b :: rest =>
    let (c, k) := utf8Step b rest
    c :: utf8DecodeFuel fuel (rest.drop k)

/-- Decode a UTF-8 byte sequence with replacement. -/
def utf8DecodeReplace (bs : List Nat) : List Char :=
  utf8DecodeFuel bs.length bs

/-! ## `urllib.parse`: `quote`, `unquote`, `urlparse`, `urlunparse` -/

/-- Bytes left unencoded by `quote(·, safe="/")`: ASCII letters and
digits, `_.-~` and `/`. -/
def quoteSafeByte (b : Nat) : Bool :=
  (decide (65 ≤ b) && decide (b ≤ 90)) ||
  (decide (97 ≤ b) && decide (b ≤ 122)) ||
  (decide (48 ≤ b) && decide (b ≤ 57)) ||
  b == 95 || b == 46 || b == 45 || b == 126 || b == 47

/-- Uppercase hex digit. -/
def hexDigitUpper (n : Nat) : Char :=
  if n < 10 then Char.ofNat (48 + n) else Char.ofNat (55 + n)

/-- `urllib.parse.quote(s)` with the default `safe="/"`. -/
def quote (s : String) : String :=
  ⟨(utf8Encode s).flatMap (fun b =>
    if quoteSafeByte b then [Char.ofNat b]
    else ['%', hexDigitUpper (b / 16), hexDigitUpper (b % 16)])⟩

/-- Value of a hex digit character (either case), Python `_hexdig`. -/
def hexVal (c : Char) : Option Nat :=
  if '0' ≤ c ∧ c ≤ '9' then some (c.toNat - 48)
  else if 'a' ≤ c ∧ c ≤ 'f' then some (c.toNat - 87)
  else if 'A' ≤ c ∧ c ≤ 'F' then some (c.toNat - 55)
  else none

/-- Token stream for `unquote`: literal characters and `%XX` bytes. -/
inductive UQTok where
  | ch (c : Char)
  | byte (b : Nat)
deriving Repr, DecidableEq

def UQTok.isByte : UQTok → Bool
  | .byte _ => true
  | .ch _ => false

def UQTok.byteVal : UQTok → Nat
  | .byte b => b
  | .ch _ => 0

/-- Decode one `%XX` escape after a `%`: the token and the number of
characters consumed. -/
def percTok (rest : List Char) : UQTok × Nat :=
  match rest with
  | h1 :: h2 :: _ =>
    match hexVal h1, hexVal h2 with
    | some v1, some v2 => (.byte (16 * v1 + v2), 2)
    | _, _ => (.ch '%', 0)
  | _ => (.ch '%', 0)

/-- Worker for `unquoteToks`; fuel makes the recursion structural. -/
def unquoteToksFuel : Nat → List Char → List UQTok
  | _, [] => []
  | 0, _ => []
  | fuel + 1, c :: rest =>
    if c = '%' then
      let (t, k) := percTok rest
      t :: unquoteToksFuel fuel (rest.drop k)
    else .ch c :: unquoteToksFuel fuel rest

/-- Scan `%XX` escapes; a `%` not followed by two hex digits stays
literal. -/
def unquoteToks (cs : List Char) : List UQTok :=
  unquoteToksFuel cs.length cs

/-- Worker for `unquoteAssemble`; fuel makes the recursion
structural. -/
def unquoteAssembleFuel : Nat → List UQTok → List Char
  | _, [] => []
  | 0, _ => []
  | fuel + 1, .ch c :: rest => c :: unquoteAssembleFuel fuel rest
  | fuel + 1, .byte b :: rest =>
    let bs := b :: (rest.takeWhile UQTok.isByte).map UQTok.byteVal
    utf8DecodeReplace bs ++ unquoteAssembleFuel fuel (rest.dropWhile UQTok.isByte)

/-- Reassemble: maximal runs of `%XX` bytes are decoded as UTF-8 with
replacement, literal characters pass through. -/
def unquoteAssemble (toks : List UQTok) : List Char :=
  unquoteAssembleFuel toks.length toks

/-- `urllib.parse.unquote(s)` with the default UTF-8 / replace. -/
def unquote (s : String) : String :=
  ⟨unquoteAssemble (unquoteToks s.data)⟩

/-- The result of `urlparse`. -/
structure UrlParts where
  scheme : String
  netloc : String
  path : String
  params : String
  query : String
  fragment : String
deriving Repr, DecidableEq

/-- Characters allowed in a URI scheme after the first. -/
def schemeChar (c : Char) : Bool :=
  c.isAlpha || c.isDigit || c == '+' || c == '-' || c == '.'

/-- Split off `scheme:` when the part before the first `:` is a valid
scheme starting with an ASCII letter; the scheme is lowercased. -/
def splitScheme (url : String) : String × String :=
  match url.data.findIdx? (· = ':') with
  | none => ("", url)
  | some i =>
    if 0 < i ∧ (url.data.headD ' ').isAlpha ∧ (url.data.take i).all schemeChar then
      (⟨(url.data.take i).map Char.toLower⟩, ⟨url.data.drop (i + 1)⟩)
    else ("", url)

/-- Split the network location after a leading `//`: up to the first of
`/?#`. -/
def splitNetloc (rest : List Char) : String × String :=
  match rest.findIdx? (fun c => c = '/' ∨ c = '?' ∨ c = '#') with
  | none => (⟨rest⟩, "")
  | some i => (⟨rest.take i⟩, ⟨rest.drop i⟩)

/-- Schemes for which `urlparse` separates `;params` from the path. -/
def usesParams : List String :=
  ["", "ftp", "hdl", "prospero", "http", "imap", "https", "shttp", "rtsp",
   "rtspu", "sip", "sips", "mms", "sftp", "tel"]

/-- `urllib.parse._splitparams`: split at the first `;` of the last
path segment. -/
def splitParams (url : String) : String × String :=
  let cs := url.data
  if cs.contains '/' then
    let start := (lastIdxOf cs '/').getD 0
    match (cs.drop start).findIdx? (· = ';') with
    | none => (url, "")
    | some j => (⟨cs.take (start + j)⟩, ⟨cs.drop (start + j + 1)⟩)
  else
    match cs.findIdx? (· = ';') with
    | none => (url, "")
    | some i => (⟨cs.take i⟩, ⟨cs.drop (i + 1)⟩)

/-- `urllib.parse.urlparse` (allow_fragments=True).  `none` models the
`ValueError` raised on a bracketed-host mismatch in the netloc. -/
def urlparse (url : String) : Option UrlParts :=
  let (scheme, rest) := splitScheme url
  let (netloc, rest) :=
    if pyStartsWith rest "//" then splitNetloc (rest.data.drop 2) else ("", rest)
  if (netloc.data.contains '[' ∧ ¬ netloc.data.contains ']') ∨
     (netloc.data.contains ']' ∧ ¬ netloc.data.contains '[') then none
  else
    let (rest, fragment) :=
      if rest.data.contains '#' then (splitHead '#' rest, (splitOnceRest '#' rest).getD "")
      else (rest, "")
    let (rest, query) :=
      if rest.data.contains '?' then (splitHead '?' rest, (splitOnceRest '?' rest).getD "")
      else (rest, "")
    let (path, params) :=
      if scheme ∈ usesParams ∧ rest.data.contains ';' then splitParams rest
      else (rest, "")
    some ⟨scheme, netloc, path, params, query, fragment⟩

/-- `urllib.parse.urlunparse`. -/
def urlunparse (p : UrlParts) : String :=
  let url := p.path
  let url := if p.params ≠ "" then url ++ ";" ++ p.params else url
  let url :=
    if p.netloc ≠ "" ∨ pyStartsWith url "//" then
      let url := if url ≠ "" ∧ ¬ pyStartsWith url "/" then "/" ++ url else url
      "//" ++ p.netloc ++ url
    else url
  let url := if p.scheme ≠ "" then p.scheme ++ ":" ++ url else url
  let url := if p.query ≠ "" then url ++ "?" ++ p.query else url
  if p.fragment ≠ "" then url ++ "#" ++ p.fragment else url

/-! ## `_CustomMarkdownify` (markdownify subclass)

The serializer framework (tree walking, `convert_hn`, text escaping) is
external; the embedded functions are the overridden element hooks
`convert_a` and `convert_img` exactly as written in `_markdownify.py`.
Options carry the defaults set by `__init__` and by the markdownify
base class (`autolinks` defaults to true, `default_title` to false). -/

structure MdOptions where
  image_output_dir : String := "assets"
  conversion_name : Option String := none
  keep_data_uris : Bool := false
  autolinks : Bool := true
  default_title : Bool := false
  keep_inline_images_in : List String := []
deriving Repr, DecidableEq

/-- Characters stripped by Python `str.strip()`. -/
def pyIsSpace (c : Char) : Bool :=
  c == ' ' || c == '\t' || c == '\n' || c == '\r' ||
  c == Char.ofNat 11 || c == Char.ofNat 12

/-- Python `s.strip()`. -/
def pyStrip (s : String) : String :=
  ⟨((s.data.dropWhile pyIsSpace).reverse.dropWhile pyIsSpace).reverse⟩

/-- `markdownify.chomp`: returns `(prefix, suffix, stripped text)` where
the prefix/suffix records a leading/trailing space of the raw text. -/
def chomp (text : String) : String × String × String :=
  let pre := if text.data.head? = some ' ' then " " else ""
  let suf := if text.data.getLast? = some ' ' then " " else ""
  (pre, suf, pyStrip text)

/-- An anchor element as seen by `convert_a`: its `href` and `title`
attributes and whether some ancestor is a `pre` element
(`el.find_parent("pre") is not None`). -/
structure AEl where
  href : Option String := none
  title : Option String := none
  inPre : Bool := false
deriving Repr, DecidableEq

/-- The href rewriting applied by `convert_a` to an accepted URL:
re-encode the path component. -/
def escapeHref (p : UrlParts) : String :=
  urlunparse { p with path := quote (unquote p.path) }

/-- The quoted title part of an emitted link. -/
def aTitlePart : Option String → String
  | some t => if t ≠ "" then " \"" ++ pyReplace t "\"" "\\\"" ++ "\"" else ""
  | none => ""

/-- The tail of `convert_a` after href filtering/escaping: the autolink
shortcut or the full bracket form (with default-title substitution). -/
def aEmit (opts : MdOptions) (pre suf text : String) (href : Option String)
    (title0 : Option String) : String :=
  let autol : Bool := opts.autolinks &&
    (match href with
     | some h => pyReplace text "\\_" "_" == h
     | none => false) &&
    !(truthy title0) && !opts.default_title
  if autol then "<" ++ href.getD "" ++ ">"
  else
    let title := if opts.default_title ∧ ¬ truthy title0 then href else title0
    let title_part := aTitlePart title
    if truthy href then
      pre ++ "[" ++ text ++ "](" ++ href.getD "" ++ title_part ++ ")" ++ suf
    else text

/-- `_CustomMarkdownify.convert_a`.  Mirrors the Python control flow:
empty chomped text yields `""`; inside `pre` the raw text is emitted;
a present scheme outside `http`/`https`/`file` (or a `ValueError` from
`urlparse`) drops the link markup; otherwise the path is re-encoded and
either the autolink shortcut or the full bracket form is emitted. -/
def convert_a (opts : MdOptions) (el : AEl) (text : String) : String :=
  let c := chomp text
  let pre := c.1
  let suf := c.2.1
  let text := c.2.2
  if text = "" then ""
  else if el.inPre then text
  else
    -- `escaped = none` models the two early `return`s inside `if href:`
    let escaped : Option (Option String) :=
      match el.href with
      | some h =>
        if h ≠ "" then
          match urlparse h with
          | none => none
          | some p =>
            if p.scheme ≠ "" ∧ (⟨p.scheme.data.map Char.toLower⟩ : String) ∉ ["http", "https", "file"] then none
            else some (some (escapeHref p))
        else some (some h)
      | none => some none
    match escaped with
    | none => pre ++ text ++ suf
    | some href => aEmit opts pre suf text href el.title

/-- An image element as seen by `convert_img`: its attributes and the
name of its parent element. -/
structure ImgEl where
  attrs : List (String × String) := []
  parentName : String := ""
deriving Repr, DecidableEq

/-- `el.attrs.get("alt", None) or ""`. -/
def imgElAlt (el : ImgEl) : String :=
  orElseStr (attrGet el.attrs "alt") ""

/-- `el.attrs.get("src", None) or el.attrs.get("data-src", None) or ""`. -/
def imgElSrc (el : ImgEl) : String :=
  orElseStr (attrGet el.attrs "src") (orElseStr (attrGet el.attrs "data-src") "")

/-- `el.attrs.get("title", None) or ""` and the quoted title part. -/
def imgElTitlePart (el : ImgEl) : String :=
  let title := orElseStr (attrGet el.attrs "title") ""
  if title ≠ "" then " \"" ++ pyReplace title "\"" "\\\"" ++ "\"" else ""

/-- The `try:` body of the data-URI branch of `convert_img`: decode,
hash, make the directory, write; `none` models a raised exception
(missing comma, bad base64, failed write) together with the filesystem
actions performed before the raise.  On success, the rewritten `src`
and the actions. -/
def imgTry (writeOk : WriteOracle) (opts : MdOptions) (src : String) :
    Option (String × List FsOp) × List FsOp :=
  match splitSecond ',' src with
  | none => (none, [])
  | some encoded =>
    match b64decode encoded with
    | none => (none, [])
    | some image_data =>
      let hashname := hashName image_data
      let filename := "image_" ++ hashname ++ extForMime (dataUriMime src)
      let output_dir :=
        if truthy opts.conversion_name then
          pathJoin opts.image_output_dir (opts.conversion_name.getD "")
        else opts.image_output_dir
      let mk := FsOp.makedirs output_dir true
      let filepath := pathJoin output_dir filename
      if writeOk filepath image_data then
        let new_src := pyReplace (pathJoin output_dir filename) "\\" "/"
        (some (new_src, [mk, FsOp.writeFile filepath image_data]), [])
      else (none, [mk])

/-- `_CustomMarkdownify.convert_img`, returning the produced Markdown
together with the filesystem actions.  The Python error string embeds
`str(e)`; the model uses the fixed prefix of that message. -/
def convert_img (writeOk : WriteOracle) (opts : MdOptions) (el : ImgEl)
    (convert_as_inline : Bool) : String × List FsOp :=
  let alt := imgElAlt el
  let src := imgElSrc el
  let title_part := imgElTitlePart el
  if convert_as_inline ∧ el.parentName ∉ opts.keep_inline_images_in then (alt, [])
  else if pyStartsWith src "data:image" ∧ ¬ opts.keep_data_uris then
    match imgTry writeOk opts src with
    | (some (new_src, ops), _) =>
      ("![" ++ alt ++ "](" ++ new_src ++ title_part ++ ")", ops)
    | (none, ops) =>
      ("![" ++ alt ++ "](image_error.png)  <!-- Error saving image -->", ops)
  else if pyStartsWith src "data:" ∧ ¬ opts.keep_data_uris then
    ("![" ++ alt ++ "](" ++ (splitHead ',' src ++ "...") ++ title_part ++ ")", [])
  else ("![" ++ alt ++ "](" ++ src ++ title_part ++ ")", [])

namespace DocxConverter

/-! ## `DocxConverter.convert` (orchestrator)

`mammoth.convert_to_html(pre_process_docx(stream), style_map).value` is
the external DOCX→HTML transform; it is treated as the opaque input
`mammothHtml`.  The downstream `HtmlConverter` is the opaque `htmlToMd`
(modelled from the spec: the HTML→Markdown serializer is a collaborator
that raises no missing-dependency error of its own; the
`conversion_name` kwarg is removed before the call). -/

/-- The attributes defined on the `DocxConverter` class itself;
`HtmlConverter`/`DocumentConverter` (outside the provided sources) are
modelled from the spec, which names no further attribute relevant to
the `hasattr` guard below. -/
def definedAttrs : List String :=
  ["_html_converter", "accepts", "_sanitize_filename", "_get_document_name",
   "_extract_and_save_images", "convert"]

/-- `hasattr(self, name)`. -/
def hasattrSelf (name : String) : Bool :=
  definedAttrs.contains name

/-- The keyword arguments `convert` reads. -/
structure ConvKwargs where
  conversion_name : Option String := none
  image_output_dir : Option String := none
  style_map : Option String := none
deriving Repr, DecidableEq

/-- The document name computed by `convert` (lines 204-207): the
`conversion_name` option when truthy, else the resolver; the
`hasattr` guard checks for `sanitize_filename`, which is not an
attribute (the method is `_sanitize_filename`). -/
def convertDocName (kwargs : ConvKwargs) (si : StreamInfo) : String :=
  let doc_name := orElseStr kwargs.conversion_name (_get_document_name si)
  if hasattrSelf "sanitize_filename" then _sanitize_filename doc_name else doc_name

/-- The outcome of `convert`: Markdown plus filesystem actions, or a
raised `MissingDependencyException` carrying the converter name, the
expected extension and the feature name. -/
inductive ConvOutcome where
  | markdown (md : String) (effects : List FsOp)
  | missingDependency (converter extension feature : String)
deriving Repr, DecidableEq

/-- `DocxConverter.convert`. -/
def convert (depAvailable : Bool) (si : StreamInfo) (kwargs : ConvKwargs)
    (mammothHtml : Doc) (writeOk : WriteOracle) (htmlToMd : Doc → String) :
    ConvOutcome :=
  if ¬ depAvailable then
    ConvOutcome.missingDependency "DocxConverter" ".docx" "docx"
  else
    let doc_name := convertDocName kwargs si
    let assets_folder := kwargs.image_output_dir.getD "assets"
    let r := _extract_and_save_images writeOk mammothHtml doc_name assets_folder
    ConvOutcome.markdown (htmlToMd r.1) r.2

end DocxConverter

/-! ## Helpers used only in theorem statements -/

/-- Does the character list contain two consecutive underscores? -/
def hasDoubleUnderscore : List Char → Bool
  | a :: b :: rest => (a == '_' && b == '_') || hasDoubleUnderscore (b :: rest)
  | _ => false

/-- Is the character in the ASCII class `[A-Za-z0-9_.-]`? -/
def asciiSafeChar (c : Char) : Bool :=
  c.isAlphanum || c == '_' || c == '.' || c == '-'

/-- The 8-character hash segment of an `image_‹hash›‹ext›` filename. -/
def fnameHashSeg (f : String) : String :=
  ⟨(f.data.drop 6).take 8⟩

/-- Does the node carry no `data:image` effective source?  (Such images
are skipped by the extraction loop.) -/
def nodeNoDataImage : Node → Bool
  | .img attrs => !(pyStartsWith (imgEffSrc attrs) "data:image")
  | .other _ => true

/-! ## Supporting lemmas -/

theorem extractNode_no_data_effects (writeOk : WriteOracle) (dir : String)
    (n : Node) (h : nodeNoDataImage n = true) :
    DocxConverter.extractNode writeOk dir n = (n, []) := by
  cases n with
  | other m => rfl
  | img attrs =>
    simp only [nodeNoDataImage, Bool.not_eq_true'] at h
    simp [DocxConverter.extractNode, DocxConverter.extractStep, h]

theorem extract_effects_of_no_data (writeOk : WriteOracle) (dir : String)
    (doc : Doc) (h : ∀ n ∈ doc, nodeNoDataImage n = true) :
    ((doc.map (DocxConverter.extractNode writeOk dir)).map (fun p => p.2)).flatten = [] := by
  induction doc with
  | nil => rfl
  | cons n rest ih =>
    have hn := extractNode_no_data_effects writeOk dir n (h n (by simp))
    simp only [List.map_cons, List.flatten_cons, hn]
    exact ih (fun m hm => h m (by simp [hm]))

theorem sanitizeChar_allowed (c : Char) :
    isPyWordChar (sanitizeChar c) = true ∨ sanitizeChar c = '-' ∨ sanitizeChar c = '.' := by
  unfold sanitizeChar
  by_cases h : (isPyWordChar c || c == '-' || c == '.') = true
  · rw [if_pos h]
    simp only [Bool.or_eq_true, beq_iff_eq] at h
    rcases h with (h | h) | h
    · exact Or.inl h
    · exact Or.inr (Or.inl h)
    · exact Or.inr (Or.inr h)
  · rw [if_neg h]
    exact Or.inl (by decide)

theorem mem_collapseAux {c : Char} (cs : List Char) : ∀ (b : Bool),
    c ∈ collapseUnderscoreAux b cs → c ∈ cs ∨ c = '_' := by
  induction cs with
  | nil => intro b h; simp [collapseUnderscoreAux] at h
  | cons a rest ih =>
    intro b h
    by_cases ha : a = '_'
    · subst ha
      cases b with
      | true =>
        simp only [collapseUnderscoreAux, if_pos rfl, if_true] at h
        rcases ih true h with h2 | h2
        · exact Or.inl (List.mem_cons_of_mem _ h2)
        · exact Or.inr h2
      | false =>
        simp only [collapseUnderscoreAux, if_pos rfl, if_false] at h
        rcases List.mem_cons.mp h with h2 | h2
        · exact Or.inr h2
        · rcases ih true h2 with h3 | h3
          · exact Or.inl (List.mem_cons_of_mem _ h3)
          · exact Or.inr h3
    · simp only [collapseUnderscoreAux, if_neg ha] at h
      rcases List.mem_cons.mp h with h2 | h2
      · exact Or.inl (h2 ▸ List.mem_cons_self a rest)
      · rcases ih false h2 with h3 | h3
        · exact Or.inl (List.mem_cons_of_mem _ h3)
        · exact Or.inr h3

theorem mem_dropWhile {α : Type} (p : α → Bool) (l : List α) {c : α}
    (h : c ∈ l.dropWhile p) : c ∈ l := by
  induction l with
  | nil => simp [List.dropWhile] at h
  | cons a rest ih =>
    cases hp : p a with
    | true =>
      simp only [List.dropWhile_cons, hp, if_true] at h
      exact List.mem_cons_of_mem _ (ih h)
    | false =>
      simp only [List.dropWhile_cons, hp, Bool.false_eq_true, if_false] at h
      exact h

theorem head_dropWhile_not {α : Type} (p : α → Bool) (l : List α) {x : α}
    (h : (l.dropWhile p).head? = some x) : p x = false := by
  induction l with
  | nil => simp [List.dropWhile] at h
  | cons a rest ih =>
    cases hp : p a with
    | true =>
      simp only [List.dropWhile_cons, hp, if_true] at h
      exact ih h
    | false =>
      simp only [List.dropWhile_cons, hp, Bool.false_eq_true, if_false,
        List.head?_cons, Option.some.injEq] at h
      rw [← h]
      exact hp

theorem getLast_dropWhile {α : Type} (p : α → Bool) (l : List α)
    (h : l.dropWhile p ≠ []) : (l.dropWhile p).getLast? = l.getLast? := by
  induction l with
  | nil => simp [List.dropWhile] at h
  | cons a rest ih =>
    cases hp : p a with
    | false => simp [List.dropWhile_cons, hp]
    | true =>
      simp only [List.dropWhile_cons, hp, if_true] at h ⊢
      cases rest with
      | nil => simp [List.dropWhile] at h
      | cons b bs => rw [ih h, List.getLast?_cons_cons]

theorem dropWhile_suffix {α : Type} (p : α → Bool) (l : List α) :
    l.dropWhile p <:+ l := by
  induction l with
  | nil => simp [List.dropWhile]
  | cons a rest ih =>
    cases hp : p a with
    | true =>
      simp only [List.dropWhile_cons, hp, if_true]
      exact ih.trans (List.suffix_cons a rest)
    | false =>
      simp [List.dropWhile_cons, hp]

theorem head_collapseAux_true (cs : List Char) :
    (collapseUnderscoreAux true cs).head? ≠ some '_' := by
  induction cs with
  | nil => simp [collapseUnderscoreAux]
  | cons a rest ih =>
    by_cases ha : a = '_'
    · subst ha
      simpa [collapseUnderscoreAux] using ih
    · simp [collapseUnderscoreAux, ha]

theorem hasDD_collapseAux (cs : List Char) : ∀ (b : Bool),
    hasDoubleUnderscore (collapseUnderscoreAux b cs) = false := by
  induction cs with
  | nil => intro b; rfl
  | cons a rest ih =>
    intro b
    by_cases ha : a = '_'
    · subst ha
      cases b with
      | true => simpa [collapseUnderscoreAux] using ih true
      | false =>
        simp only [collapseUnderscoreAux, if_pos rfl, if_false]
        have hh := head_collapseAux_true rest
        have ht := ih true
        cases hx : collapseUnderscoreAux true rest with
        | nil => rfl
        | cons y ys =>
          rw [hx] at hh ht
          have hy : (y == '_') = false := by
            simp only [List.head?_cons, ne_eq, Option.some.injEq] at hh
            simpa using hh
          simp [hasDoubleUnderscore, hy, ht]
    · simp only [collapseUnderscoreAux, if_neg ha]
      have ht := ih false
      cases hx : collapseUnderscoreAux false rest with
      | nil => rfl
      | cons y ys =>
        rw [hx] at ht
        have haa : (a == '_') = false := by simpa using ha
        simp [hasDoubleUnderscore, haa, ht]

theorem hasDD_iff_chain (cs : List Char) :
    hasDoubleUnderscore cs = false ↔
      cs.Chain' (fun a b => ¬(a = '_' ∧ b = '_')) := by
  induction cs with
  | nil => simp [hasDoubleUnderscore]
  | cons a rest ih =>
    cases rest with
    | nil => simp [hasDoubleUnderscore]
    | cons b r2 =>
      rw [List.chain'_cons, ← ih]
      simp only [hasDoubleUnderscore, Bool.or_eq_false_iff, Bool.and_eq_false_iff,
        beq_eq_false_iff_ne, ne_eq, not_and_or]

theorem hasDD_dropWhile (p : Char → Bool) (cs : List Char)
    (h : hasDoubleUnderscore cs = false) :
    hasDoubleUnderscore (cs.dropWhile p) = false := by
  rw [hasDD_iff_chain] at h ⊢
  exact h.suffix (dropWhile_suffix p cs)

theorem hasDD_reverse (cs : List Char) :
    hasDoubleUnderscore cs.reverse = false ↔ hasDoubleUnderscore cs = false := by
  rw [hasDD_iff_chain, hasDD_iff_chain, List.chain'_reverse]
  constructor
  · exact fun h => h.imp (fun a b hh => by revert hh; unfold flip; tauto)
  · exact fun h => h.imp (fun a b hh => by revert hh; unfold flip; tauto)

end Markitdown

namespace Markitdown

/-! ## Claim theorems -/

/-- **C2 counterexample.**  The sanitizer keeps Unicode word characters
(Python `\w` is Unicode-aware), so the output need not match
`^[A-Za-z0-9_.-]*$`: a CJK ideograph passes through unchanged. -/
theorem sanitize_filename_ascii_cex :
    DocxConverter._sanitize_filename "中" = "中" ∧
    (∃ c ∈ (DocxConverter._sanitize_filename "中").data, asciiSafeChar c = false) := by
  refine ⟨by decide, by decide⟩

/-- **C2 (amended).**  For every input the sanitizer output consists of
Python word characters (`\w`, which includes non-ASCII letters and
digits), hyphens and periods; it contains no two consecutive
underscores, neither starts nor ends with an underscore, and is never
empty. -/
theorem sanitize_filename_invariants (s : String) :
    (∀ c ∈ (DocxConverter._sanitize_filename s).data,
      isPyWordChar c = true ∨ c = '-' ∨ c = '.') ∧
    hasDoubleUnderscore (DocxConverter._sanitize_filename s).data = false ∧
    (DocxConverter._sanitize_filename s).data.head? ≠ some '_' ∧
    (DocxConverter._sanitize_filename s).data.getLast? ≠ some '_' ∧
    DocxConverter._sanitize_filename s ≠ "" := by
  have hdef : DocxConverter._sanitize_filename s =
      (if stripUnderscores (collapseUnderscores ((nfkd s).data.map sanitizeChar)) = []
       then "unnamed"
       else ⟨stripUnderscores (collapseUnderscores ((nfkd s).data.map sanitizeChar))⟩) := rfl
  rw [hdef]
  by_cases hemp : stripUnderscores (collapseUnderscores ((nfkd s).data.map sanitizeChar)) = []
  · rw [if_pos hemp]
    exact ⟨by decide, by decide, by decide, by decide, by decide⟩
  · rw [if_neg hemp]
    refine ⟨?_, ?_, ?_, ?_, ?_⟩
    · intro c hc
      have hc2 : c ∈ collapseUnderscores ((nfkd s).data.map sanitizeChar) := by
        unfold stripUnderscores at hc
        have h1 := List.mem_reverse.mp hc
        have h2 := mem_dropWhile _ _ h1
        have h3 := List.mem_reverse.mp h2
        exact mem_dropWhile _ _ h3
      rcases mem_collapseAux _ false hc2 with h | h
      · rcases List.mem_map.mp h with ⟨x, _, hx⟩
        rw [← hx]
        exact sanitizeChar_allowed x
      · subst h
        exact Or.inl (by decide)
    · have h1 : hasDoubleUnderscore (collapseUnderscores ((nfkd s).data.map sanitizeChar))
          = false := hasDD_collapseAux _ false
      unfold stripUnderscores
      exact (hasDD_reverse _).mpr (hasDD_dropWhile _ _ ((hasDD_reverse _).mpr
        (hasDD_dropWhile _ _ h1)))
    · show (stripUnderscores _).head? ≠ some '_'
      unfold stripUnderscores
      rw [List.head?_reverse]
      intro hco
      have hne2 : (((collapseUnderscores ((nfkd s).data.map sanitizeChar)).dropWhile
          (· = '_')).reverse.dropWhile (· = '_')) ≠ [] := by
        intro h0
        rw [h0] at hco
        simp at hco
      rw [getLast_dropWhile _ _ hne2, List.getLast?_reverse] at hco
      have := head_dropWhile_not (· = '_') _ hco
      simp at this
    · show (stripUnderscores _).getLast? ≠ some '_'
      unfold stripUnderscores
      rw [List.getLast?_reverse]
      intro hco
      have := head_dropWhile_not (· = '_') _ hco
      simp at this
    · intro hco
      apply hemp
      have := congrArg String.data hco
      simpa using this

/-- **C1 counterexample.**  The claim says the resolver consults `url`
(with only a url hint it should return `"y"` for `http://h/y.docx`) and
that the `local_path` result is sanitized; the code returns the default
for a url-only descriptor and the unsanitized stem for a local path. -/
theorem get_document_name_url_ignored_cex :
    DocxConverter._get_document_name { url := some "http://h/y.docx" } = "docx_document" ∧
    "docx_document" ≠ "y" ∧
    DocxConverter._get_document_name { local_path := some "/tmp/a b.docx" } = "a b" ∧
    DocxConverter._sanitize_filename "a b" = "a_b" ∧
    "a b" ≠ DocxConverter._sanitize_filename "a b" := by
  refine ⟨by decide, by decide, by decide, by decide, by decide⟩

/-- **C1 (amended).**  `_get_document_name` tries `filename` (sanitized
stem), then `local_path` (unsanitized stem), then the literal
`"docx_document"`; the `url` hint is never consulted. -/
theorem get_document_name_characterization (si : StreamInfo) (u : Option String) :
    DocxConverter._get_document_name si =
      (if truthy si.filename ∧ (splitext (basename (si.filename.getD ""))).1 ≠ "" then
        DocxConverter._sanitize_filename (splitext (basename (si.filename.getD ""))).1
      else if truthy si.local_path ∧ (splitext (basename (si.local_path.getD ""))).1 ≠ "" then
        (splitext (basename (si.local_path.getD ""))).1
      else "docx_document") ∧
    DocxConverter._get_document_name { si with url := u } =
      DocxConverter._get_document_name si := by
  constructor
  · by_cases hf : truthy si.filename <;>
      by_cases hn : (splitext (basename (si.filename.getD ""))).1 = "" <;>
      by_cases hl : truthy si.local_path <;>
      by_cases hm : (splitext (basename (si.local_path.getD ""))).1 = "" <;>
      simp [DocxConverter._get_document_name, hf, hn, hl, hm]
  · cases si
    rfl

/-- **C3 (code bug).**  `_get_document_name` documents itself as
sanitizing the extracted name, but the `local_path` branch returns the
stem unsanitized: for `/tmp/my file.docx` it returns `"my file"`, while
the sanitizer maps that stem to `"my_file"`. -/
theorem get_document_name_local_path_unsanitized :
    DocxConverter._get_document_name { local_path := some "/tmp/my file.docx" } = "my file" ∧
    DocxConverter._sanitize_filename "my file" = "my_file" ∧
    "my file" ≠ "my_file" := by
  refine ⟨by decide, by decide, by decide⟩

/-- **C5.**  `convert` raises the missing-dependency error exactly when
the DOCX→HTML transform library is unavailable, and the error carries
the converter name, the `.docx` extension and the `docx` feature name;
with the dependency available this error is never produced. -/
theorem convert_missing_dependency_iff (dep : Bool) (si : StreamInfo)
    (kwargs : DocxConverter.ConvKwargs) (html : Doc) (writeOk : WriteOracle)
    (htmlToMd : Doc → String) (c e f : String) :
    DocxConverter.convert dep si kwargs html writeOk htmlToMd =
        DocxConverter.ConvOutcome.missingDependency c e f ↔
      dep = false ∧ c = "DocxConverter" ∧ e = ".docx" ∧ f = "docx" := by
  cases dep <;>
    simp [DocxConverter.convert, eq_comm]

/-- **C9.**  A truthy `conversion_name` option is used verbatim as the
per-document assets folder: the `hasattr` guard looks for
`sanitize_filename`, which does not exist (the method is
`_sanitize_filename`), so no sanitization is applied and the string —
including filesystem-unsafe characters — reaches the directory path. -/
theorem conversion_name_used_verbatim (c : String) (hc : c ≠ "")
    (si : StreamInfo) (iod sm : Option String) (html : Doc)
    (writeOk : WriteOracle) (htmlToMd : Doc → String) :
    DocxConverter.hasattrSelf "sanitize_filename" = false ∧
    DocxConverter.convertDocName ⟨some c, iod, sm⟩ si = c ∧
    DocxConverter.convert true si ⟨some c, iod, sm⟩ html writeOk htmlToMd =
      DocxConverter.ConvOutcome.markdown
        (htmlToMd (DocxConverter._extract_and_save_images writeOk html c (iod.getD "assets")).1)
        (DocxConverter._extract_and_save_images writeOk html c (iod.getD "assets")).2 := by
  have hdn : DocxConverter.convertDocName ⟨some c, iod, sm⟩ si = c := by
    simp [DocxConverter.convertDocName, orElseStr, DocxConverter.hasattrSelf,
      DocxConverter.definedAttrs, hc]
  refine ⟨by decide, hdn, ?_⟩
  simp [DocxConverter.convert, hdn]

/-- **C9 witness.** -/
theorem conversion_name_used_verbatim_witness :
    DocxConverter.hasattrSelf "sanitize_filename" = false ∧
    DocxConverter.convertDocName ⟨some "un/safe name", none, none⟩ {} = "un/safe name" ∧
    DocxConverter.convert true {} ⟨some "un/safe name", none, none⟩ [] (fun _ _ => true)
        (fun _ => "md") =
      DocxConverter.ConvOutcome.markdown
        (( fun _ => "md")
          (DocxConverter._extract_and_save_images (fun _ _ => true) [] "un/safe name"
            ((none : Option String).getD "assets")).1)
        (DocxConverter._extract_and_save_images (fun _ _ => true) [] "un/safe name"
          ((none : Option String).getD "assets")).2 :=
  conversion_name_used_verbatim "un/safe name" (by decide) {} none none []
    (fun _ _ => true) (fun _ => "md")

/-- **C4.**  The image-extraction pass never fails as a whole: a
document with no `img` element is returned unchanged with no
filesystem action; otherwise every node is processed independently, and
an image whose data URI lacks a comma, whose base64 payload does not
decode, or whose file write errors is left with exactly its original
attributes. -/
theorem extract_per_image_failure_recovered (writeOk : WriteOracle)
    (docE doc : Doc) (attrs : List (String × String)) (folder assets : String)
    (hE : docE.filter Node.isImg = [])
    (hD : doc.filter Node.isImg ≠ [])
    (hsrc : pyStartsWith (imgEffSrc attrs) "data:image" = true)
    (hfail : splitOnceRest ',' (imgEffSrc attrs) = none ∨
             (∃ enc, splitOnceRest ',' (imgEffSrc attrs) = some enc ∧ b64decode enc = none) ∨
             (∃ b, extractDecoded (imgEffSrc attrs) = some b ∧
               writeOk (pathJoin (pathJoin assets folder)
                 (imageFilename b (extForMime (dataUriMime (imgEffSrc attrs))))) b = false)) :
    DocxConverter._extract_and_save_images writeOk docE folder assets = (docE, []) ∧
    (DocxConverter._extract_and_save_images writeOk doc folder assets).1 =
      doc.map (fun n => (DocxConverter.extractNode writeOk (pathJoin assets folder) n).1) ∧
    DocxConverter.extractNode writeOk (pathJoin assets folder) (Node.img attrs) =
      (Node.img attrs, []) := by
  refine ⟨?_, ?_, ?_⟩
  · simp [DocxConverter._extract_and_save_images, hE]
  · simp [DocxConverter._extract_and_save_images, hD]
  · have hne : imgEffSrc attrs ≠ "" := by
      intro h0
      rw [h0] at hsrc
      exact absurd hsrc (by decide)
    have htry : DocxConverter.extractTry writeOk (pathJoin assets folder) attrs
        (imgEffSrc attrs) = none := by
      rcases hfail with h | ⟨enc, henc, hdec⟩ | ⟨b, hb, hw⟩
      · simp [DocxConverter.extractTry, h]
      · simp [DocxConverter.extractTry, henc, hdec]
      · rcases henc : splitOnceRest ',' (imgEffSrc attrs) with _ | enc
        · simp [DocxConverter.extractTry, henc]
        · have hdec : b64decode enc = some b := by
            simpa [extractDecoded, henc] using hb
          simp [DocxConverter.extractTry, henc, hdec, imageFilename] at hw ⊢
          simp [hw]
    simp [DocxConverter.extractNode, DocxConverter.extractStep, hsrc, hne, htry]

/-- **C4 witness.** -/
theorem extract_per_image_failure_recovered_witness :
    DocxConverter._extract_and_save_images (fun _ _ => true)
        [Node.other "<p>t</p>"] "d" "assets" = ([Node.other "<p>t</p>"], []) ∧
    (DocxConverter._extract_and_save_images (fun _ _ => true)
        [Node.img [("src", "data:image/png;base64")],
         Node.img [("src", "data:image/png;base64,AAAA")]] "d" "assets").1 =
      [Node.img [("src", "data:image/png;base64")],
       Node.img [("src", "data:image/png;base64,AAAA")]].map
        (fun n => (DocxConverter.extractNode (fun _ _ => true) (pathJoin "assets" "d") n).1) ∧
    DocxConverter.extractNode (fun _ _ => true) (pathJoin "assets" "d")
        (Node.img [("src", "data:image/png;base64")]) =
      (Node.img [("src", "data:image/png;base64")], []) :=
  extract_per_image_failure_recovered (fun _ _ => true)
    [Node.other "<p>t</p>"]
    [Node.img [("src", "data:image/png;base64")],
     Node.img [("src", "data:image/png;base64,AAAA")]]
    [("src", "data:image/png;base64")] "d" "assets"
    (by decide) (by decide) (by decide) (Or.inl (by decide))

/-- **C10.**  When the parsed HTML has at least one `img` element the
extraction pass records a recursive, pre-existence-tolerant directory
creation for `‹assets›/‹doc›` — even when no image carries a
`data:image` source and nothing is written into the directory; with no
`img` elements, no filesystem action is recorded at all. -/
theorem extract_creates_dir (writeOk : WriteOracle) (docA docB docC : Doc)
    (folder assets : String)
    (hA : docA.filter Node.isImg ≠ [])
    (hAll : ∀ n ∈ docA, nodeNoDataImage n = true)
    (hB : docB.filter Node.isImg = [])
    (hC : docC.filter Node.isImg ≠ []) :
    (DocxConverter._extract_and_save_images writeOk docA folder assets).2 =
      [FsOp.makedirs (pathJoin assets folder) true] ∧
    DocxConverter._extract_and_save_images writeOk docB folder assets = (docB, []) ∧
    (DocxConverter._extract_and_save_images writeOk docC folder assets).2.head? =
      some (FsOp.makedirs (pathJoin assets folder) true) := by
  refine ⟨?_, ?_, ?_⟩
  · simp only [DocxConverter._extract_and_save_images, hA, if_neg hA]
    simp only [List.map_map]
    simp
    intro a ha
    have h := extractNode_no_data_effects writeOk (pathJoin assets folder) a (hAll a ha)
    simp [h]
  · simp [DocxConverter._extract_and_save_images, hB]
  · simp [DocxConverter._extract_and_save_images, hC]

/-- **C10 witness.** -/
theorem extract_creates_dir_witness :
    (DocxConverter._extract_and_save_images (fun _ _ => true)
        [Node.img [("src", "http://x/y.png")]] "Doc" "assets").2 =
      [FsOp.makedirs (pathJoin "assets" "Doc") true] ∧
    DocxConverter._extract_and_save_images (fun _ _ => true)
        [Node.other "<p>hi</p>"] "Doc" "assets" = ([Node.other "<p>hi</p>"], []) ∧
    (DocxConverter._extract_and_save_images (fun _ _ => true)
        [Node.img [("src", "data:image/png;base64,AAAA")]] "Doc" "assets").2.head? =
      some (FsOp.makedirs (pathJoin "assets" "Doc") true) :=
  extract_creates_dir (fun _ _ => true)
    [Node.img [("src", "http://x/y.png")]] [Node.other "<p>hi</p>"]
    [Node.img [("src", "data:image/png;base64,AAAA")]] "Doc" "assets"
    (by decide) (by decide) (by decide) (by decide)

end Markitdown

namespace Markitdown

/-! ## SHA-256 length lemmas (for C6) -/

theorem shaRound_length (st : List Nat) (wk : Nat × Nat) :
    (shaRound st wk).length = st.length := by
  unfold shaRound
  split <;> rfl

theorem foldl_shaRound_length (ws : List (Nat × Nat)) : ∀ st : List Nat,
    (ws.foldl shaRound st).length = st.length := by
  induction ws with
  | nil => intro st; rfl
  | cons w ws ih =>
    intro st
    rw [List.foldl_cons, ih, shaRound_length]

theorem shaBlock_length (hs block : List Nat) :
    (shaBlock hs block).length = hs.length := by
  unfold shaBlock
  simp [List.length_zip, foldl_shaRound_length, Nat.min_self]

theorem sha256Words_length (msg : List Nat) : (sha256Words msg).length = 8 := by
  unfold sha256Words
  generalize chunks64 (shaPad msg) = blocks
  have key : ∀ (bs : List (List Nat)) (hs : List Nat),
      (bs.foldl shaBlock hs).length = hs.length := by
    intro bs
    induction bs with
    | nil => intro hs; rfl
    | cons b bs ih => intro hs; rw [List.foldl_cons, ih, shaBlock_length]
  rw [key]
  rfl

theorem hex8_length (w : Nat) : (hex8 w).length = 8 := rfl

theorem sha256hex_data_length (msg : List Nat) : (sha256hex msg).data.length = 64 := by
  show ((sha256Words msg).flatMap hex8).length = 64
  have key : ∀ ws : List Nat, (ws.flatMap hex8).length = 8 * ws.length := by
    intro ws
    induction ws with
    | nil => rfl
    | cons w ws ih =>
      simp only [List.flatMap_cons, List.length_append, ih, hex8_length,
        List.length_cons]
      omega
  rw [key, sha256Words_length]

theorem hashName_length (b : List Nat) : (hashName b).data.length = 8 := by
  show ((sha256hex b).data.take 8).length = 8
  rw [List.length_take, sha256hex_data_length]
  decide

theorem fnameHashSeg_imageFilename (b : List Nat) (ext : String) :
    fnameHashSeg (imageFilename b ext) = hashName b := by
  unfold fnameHashSeg imageFilename
  have hdata : ("image_" ++ hashName b ++ ext).data =
      "image_".data ++ ((hashName b).data ++ ext.data) := by
    simp [String.data_append]
  rw [hdata, List.drop_left' (by rfl), List.take_left' (hashName_length b)]

/-- **C6 counterexample.**  The full extracted filename is not a
function of the image bytes alone: the same decoded payload declared as
`image/png` and as `image/gif` produces different filenames (same hash
segment, different extension). -/
theorem image_filename_mime_dependent_cex :
    extractDecoded "data:image/png;base64,AAAA" =
      extractDecoded "data:image/gif;base64,AAAA" ∧
    extractFilename "data:image/png;base64,AAAA" = some "image_709e80c8.png" ∧
    extractFilename "data:image/gif;base64,AAAA" = some "image_709e80c8.gif" ∧
    extractFilename "data:image/png;base64,AAAA" ≠
      extractFilename "data:image/gif;base64,AAAA" := by
  refine ⟨by decide, by rfl, by rfl, by decide⟩

/-- **C6 (amended).**  Across both image-saving code paths the
8-hex-character hash segment is a deterministic function of the decoded
bytes; the full filename is a deterministic function of the bytes and
the declared media type; and two payloads can only collide on a full
filename when their truncated SHA-256 digests collide. -/
theorem image_filename_content_addressed (s1 s2 : String) (b1 b2 : List Nat)
    (f1 f2 : String)
    (h1 : extractDecoded s1 = some b1) (h2 : imgDecoded s2 = some b2)
    (hf1 : extractFilename s1 = some f1) (hf2 : imgFilename s2 = some f2) :
    (b1 = b2 → fnameHashSeg f1 = fnameHashSeg f2) ∧
    (b1 = b2 → dataUriMime s1 = dataUriMime s2 → f1 = f2) ∧
    (f1 = f2 → hashName b1 = hashName b2) := by
  have e1 : f1 = imageFilename b1 (extForMime (dataUriMime s1)) := by
    simp only [extractFilename] at hf1
    simp only [extractDecoded] at h1
    rw [h1] at hf1
    simpa using hf1.symm
  have e2 : f2 = imageFilename b2 (extForMime (dataUriMime s2)) := by
    simp only [imgFilename] at hf2
    simp only [imgDecoded] at h2
    rw [h2] at hf2
    simpa using hf2.symm
  refine ⟨?_, ?_, ?_⟩
  · intro hb
    subst hb
    rw [e1, e2, fnameHashSeg_imageFilename, fnameHashSeg_imageFilename]
  · intro hb hm
    subst hb
    rw [e1, e2, hm]
  · intro hf
    have hseg := congrArg fnameHashSeg hf
    rwa [e1, e2, fnameHashSeg_imageFilename, fnameHashSeg_imageFilename] at hseg

/-- **C6 witness.** -/
theorem image_filename_content_addressed_witness :
    (([0, 0, 0] : List Nat) = [0, 0, 0] →
      fnameHashSeg "image_709e80c8.png" = fnameHashSeg "image_709e80c8.jpg") ∧
    (([0, 0, 0] : List Nat) = [0, 0, 0] →
      dataUriMime "data:image/png;base64,AAAA" =
        dataUriMime "data:image/jpeg;base64,AAAA" →
      "image_709e80c8.png" = "image_709e80c8.jpg") ∧
    ("image_709e80c8.png" = "image_709e80c8.jpg" →
      hashName [0, 0, 0] = hashName [0, 0, 0]) :=
  image_filename_content_addressed
    "data:image/png;base64,AAAA" "data:image/jpeg;base64,AAAA"
    [0, 0, 0] [0, 0, 0] "image_709e80c8.png" "image_709e80c8.jpg"
    (by rfl) (by rfl) (by rfl) (by rfl)

end Markitdown

namespace Markitdown

/-- **C8.**  With data-URI preservation off and inline mode off, an
image whose effective source is a `data:` URI that is not a
`data:image` URI is emitted with only the part of the URI before the
first comma followed by `"..."` — the payload is elided. -/
theorem convert_img_truncates_nonimage_data_uri (writeOk : WriteOracle)
    (opts : MdOptions) (el : ImgEl)
    (hkeep : opts.keep_data_uris = false)
    (hdata : pyStartsWith (imgElSrc el) "data:" = true)
    (himg : pyStartsWith (imgElSrc el) "data:image" = false) :
    convert_img writeOk opts el false =
      ("![" ++ imgElAlt el ++ "](" ++ (splitHead ',' (imgElSrc el) ++ "...") ++
        imgElTitlePart el ++ ")", []) := by
  unfold convert_img
  simp [hkeep, hdata, himg]

/-- **C8 witness.** -/
theorem convert_img_truncates_nonimage_data_uri_witness :
    convert_img (fun _ _ => true) {}
        { attrs := [("src", "data:application/pdf;base64,JVBERi0x"), ("alt", "doc")] }
        false =
      ("![" ++
        imgElAlt { attrs := [("src", "data:application/pdf;base64,JVBERi0x"), ("alt", "doc")] } ++
        "](" ++
        (splitHead ','
          (imgElSrc
            { attrs := [("src", "data:application/pdf;base64,JVBERi0x"), ("alt", "doc")] }) ++
          "...") ++
        imgElTitlePart
          { attrs := [("src", "data:application/pdf;base64,JVBERi0x"), ("alt", "doc")] } ++
        ")", []) :=
  convert_img_truncates_nonimage_data_uri (fun _ _ => true) {}
    { attrs := [("src", "data:application/pdf;base64,JVBERi0x"), ("alt", "doc")] }
    rfl (by decide) (by decide)

end Markitdown

namespace Markitdown

/-! ## Percent-encoding lemmas (for C7) -/

theorem char_ofNat_toNat_small : ∀ b < 128, (Char.ofNat b).toNat = b := by decide

theorem quoteSafeByte_lt (b : Nat) (h : quoteSafeByte b = true) : b < 128 := by
  simp only [quoteSafeByte, Bool.or_eq_true, Bool.and_eq_true, decide_eq_true_eq,
    beq_iff_eq] at h
  rcases h with h | h | h | h | h | h | h | h <;> omega

theorem hexDigitUpper_safe : ∀ n < 16, quoteSafeByte (hexDigitUpper n).toNat = true := by
  decide

theorem utf8EncodeChar_lt (c : Char) : ∀ b ∈ utf8EncodeChar c, b < 256 := by
  intro b hb
  have hv : c.val.toNat < 0xd800 ∨ (0xdfff < c.val.toNat ∧ c.val.toNat < 0x110000) :=
    c.valid
  have hc : c.toNat < 1114112 := by
    show c.val.toNat < 1114112
    omega
  unfold utf8EncodeChar at hb
  split_ifs at hb with h1 h2 h3 <;> simp only [List.mem_cons, List.not_mem_nil,
    or_false, List.mem_singleton] at hb <;> rcases hb with hb | hb | hb | hb <;> omega

theorem quote_chars (s : String) :
    ∀ c ∈ (quote s).data, quoteSafeByte c.toNat = true ∨ c = '%' := by
  intro c hc
  have hc2 : c ∈ (utf8Encode s).flatMap (fun b =>
      if quoteSafeByte b then [Char.ofNat b]
      else ['%', hexDigitUpper (b / 16), hexDigitUpper (b % 16)]) := hc
  rcases List.mem_flatMap.mp hc2 with ⟨b, hb, hcb⟩
  have hblt : b < 256 := by
    rcases List.mem_flatMap.mp hb with ⟨ch, _, hbch⟩
    exact utf8EncodeChar_lt ch b hbch
  by_cases hsafe : quoteSafeByte b = true
  · rw [if_pos hsafe] at hcb
    simp only [List.mem_singleton] at hcb
    subst hcb
    left
    rw [char_ofNat_toNat_small b (quoteSafeByte_lt b hsafe)]
    exact hsafe
  · rw [if_neg hsafe] at hcb
    simp only [List.mem_cons, List.not_mem_nil, or_false] at hcb
    rcases hcb with hcb | hcb | hcb
    · subst hcb; right; rfl
    · subst hcb; left; exact hexDigitUpper_safe (b / 16) (by omega)
    · subst hcb; left; exact hexDigitUpper_safe (b % 16) (by omega)

theorem str_append_ne_empty (x y : String) (h : x ≠ "") : x ++ y ≠ "" := by
  intro h0
  apply h
  have h1 := congrArg String.data h0
  rw [String.data_append] at h1
  have h2 := List.append_eq_nil.mp h1
  exact String.ext h2.1

theorem urlunparse_ne_empty (p : UrlParts) (h : p.scheme ≠ "") : urlunparse p ≠ "" := by
  unfold urlunparse
  split_ifs <;>
    first
      | exact absurd h (by assumption)
      | ((repeat' apply str_append_ne_empty); exact h)

end Markitdown

namespace Markitdown

theorem aEmit_contains (opts : MdOptions) (pre suf text E : String)
    (title0 : Option String) (hE : E ≠ "") :
    ∃ a b, aEmit opts pre suf text (some E) title0 = a ++ E ++ b := by
  simp only [aEmit]
  by_cases hau : (opts.autolinks && (pyReplace text "\\_" "_" == E) &&
      !(truthy title0) && !opts.default_title) = true
  · simp only [hau, if_true]
    exact ⟨"<", ">", rfl⟩
  · simp only [hau, if_false, Option.getD_some]
    have htr : truthy (some E) = true := by
      simp [truthy, hE]
    simp only [htr, if_true]
    refine ⟨pre ++ "[" ++ text ++ "](",
      aTitlePart (if opts.default_title ∧ ¬ truthy title0 then some E else title0) ++
        ")" ++ suf, ?_⟩
    apply String.ext
    simp [String.data_append, List.append_assoc]

/-- **C7.**  An anchor with a present scheme outside
`http`/`https`/`file` (for example `javascript:`) is emitted as plain
chomped text with no link markup; an anchor with an `http`/`https` href
is emitted with the re-encoded href, whose path component
(`quote(unquote(path))`) consists solely of safe characters and percent
signs. -/
theorem convert_a_scheme_filter_and_percent_encoding
    (opts : MdOptions) (el1 el2 : AEl) (t1 t2 h1 h2 : String) (q p : UrlParts)
    (h1t : (chomp t1).2.2 ≠ "") (h1p : el1.inPre = false)
    (h1h : el1.href = some h1) (h1ne : h1 ≠ "") (h1u : urlparse h1 = some q)
    (h1s : q.scheme ≠ "")
    (h1f : (⟨q.scheme.data.map Char.toLower⟩ : String) ∉
      (["http", "https", "file"] : List String))
    (h2t : (chomp t2).2.2 ≠ "") (h2p : el2.inPre = false)
    (h2h : el2.href = some h2) (h2ne : h2 ≠ "") (h2u : urlparse h2 = some p)
    (h2s : p.scheme = "http" ∨ p.scheme = "https") :
    convert_a opts el1 t1 = (chomp t1).1 ++ (chomp t1).2.2 ++ (chomp t1).2.1 ∧
    (∃ a b, convert_a opts el2 t2 = a ++ escapeHref p ++ b) ∧
    (∀ c ∈ (quote (unquote p.path)).data, quoteSafeByte c.toNat = true ∨ c = '%') := by
  refine ⟨?_, ?_, quote_chars (unquote p.path)⟩
  · simp [convert_a, h1t, h1p, h1h, h1ne, h1u, h1s, h1f]
  · have hmem : (⟨p.scheme.data.map Char.toLower⟩ : String) ∈
        (["http", "https", "file"] : List String) := by
      rcases h2s with h | h <;> rw [h] <;> decide
    have hsne : ({ p with path := quote (unquote p.path) } : UrlParts).scheme ≠ "" := by
      show p.scheme ≠ ""
      rcases h2s with h | h <;> rw [h] <;> decide
    have hne2 : escapeHref p ≠ "" := urlunparse_ne_empty _ hsne
    have hred : convert_a opts el2 t2 =
        aEmit opts (chomp t2).1 (chomp t2).2.1 (chomp t2).2.2
          (some (escapeHref p)) el2.title := by
      simp [convert_a, h2t, h2p, h2h, h2ne, h2u, hmem]
    rw [hred]
    exact aEmit_contains _ _ _ _ _ _ hne2

end Markitdown

namespace Markitdown

/-- **C7 witness.** -/
theorem convert_a_scheme_filter_and_percent_encoding_witness :
    convert_a {} { href := some "javascript:alert(1)" } "click" =
      (chomp "click").1 ++ (chomp "click").2.2 ++ (chomp "click").2.1 ∧
    (∃ a b, convert_a {} { href := some "https://x/y z" } "text" =
      a ++ escapeHref ⟨"https", "x", "/y z", "", "", ""⟩ ++ b) ∧
    (∀ c ∈ (quote (unquote "/y z")).data, quoteSafeByte c.toNat = true ∨ c = '%') :=
  convert_a_scheme_filter_and_percent_encoding {}
    { href := some "javascript:alert(1)" } { href := some "https://x/y z" }
    "click" "text" "javascript:alert(1)" "https://x/y z"
    ⟨"javascript", "", "alert(1)", "", "", ""⟩ ⟨"https", "x", "/y z", "", "", ""⟩
    (by decide) rfl rfl (by decide) (by decide) (by decide) (by decide)
    (by decide) rfl rfl (by decide) (by decide) (Or.inr rfl)

end Markitdown
